import Mathlib

set_option maxRecDepth 100000

/-!
# SPI DMA CRC frame protocol: verification development

Shallow embedding of the `dma-snippets` repository (the shared protocol
constants of `src/arduino_spi_dma_crc/libraries/Common/common_defs.h`) and of
the frame-transfer protocol that the specification builds on those constants:
CRC-32 engine, frame codec, retry policy and the master session state machine.
Bytes are modelled as `Nat` below 256, frames as `List Nat`, and 32-bit
checksums as `Nat` below `2 ^ 32`.
-/

/-- Constant `BUFFER_SIZE` from `common_defs.h`: the size of the data buffer
to be exchanged between master and slave, excluding any metadata like a CRC
checksum. -/
def BUFFER_SIZE : Nat := 256

/-- Constant `CRC_SIZE` from `common_defs.h`: the size of the CRC32 checksum
in bytes. -/
def CRC_SIZE : Nat := 4

/-- The reflected CRC-32 polynomial named by the specification. -/
def CRC32_POLY : Nat := 0xEDB88320

/-- The CRC-32 initial value named by the specification. -/
def CRC32_INIT : Nat := 0xFFFFFFFF

/-- The CRC-32 final XOR value named by the specification. -/
def CRC32_FINAL_XOR : Nat := 0xFFFFFFFF

/-- One shift-and-conditionally-xor step of the reflected CRC-32 register:
shift right by one bit and, when the bit shifted out was set, fold in the
reflected polynomial `0xEDB88320`. -/
def crcStep (c : Nat) : Nat := (c >>> 1) ^^^ (CRC32_POLY * (c % 2))

/-- Iterate `crcStep` a given number of times. -/
def crcStepN : Nat → Nat → Nat
  | 0, c => c
  | n + 1, c => crcStepN n (crcStep c)

/-- Modelled from the spec: the per-byte update of the byte-wise CRC-32
implementation (the software reference path of `CrcEngine`, no source for
which is under `src/`): xor the byte into the low bits of the register, then
run eight register steps. -/
def crcUpdateByte (c b : Nat) : Nat := crcStepN 8 (c ^^^ b)

/-- Modelled from the spec: `CrcEngine.compute(payload) -> uint32`, missing
from `src/`.  Standard CRC-32: initial value `0xFFFFFFFF`, byte-wise update
with the reflected polynomial `0xEDB88320`, final xor `0xFFFFFFFF`, computed
over the payload bytes only. -/
def CrcEngine.compute (payload : List Nat) : Nat :=
  (payload.foldl crcUpdateByte CRC32_INIT) ^^^ CRC32_FINAL_XOR

/-- The `n` low bits of `b`, least-significant first. -/
def bitsLSB : Nat → Nat → List Nat
  | 0, _ => []
  | n + 1, b => (b % 2) :: bitsLSB n (b >>> 1)

/-- One message bit consumed by the bit-at-a-time CRC-32: xor the bit into
the low end of the register, then one register step. -/
def crcBitStep (c bit : Nat) : Nat := crcStep (c ^^^ bit)

/-- Modelled from the spec: the bit-at-a-time standard CRC-32 reference
function (reflected polynomial `0xEDB88320`, initial value `0xFFFFFFFF`,
final xor `0xFFFFFFFF`): the message bits are the payload bytes in order,
each byte least-significant bit first. -/
def crc32_reference (payload : List Nat) : Nat :=
  ((payload.flatMap (bitsLSB 8)).foldl crcBitStep CRC32_INIT) ^^^ CRC32_FINAL_XOR

/-- The 4-byte little-endian encoding of a 32-bit checksum. -/
def toLEBytes (c : Nat) : List Nat :=
  [c % 256, (c >>> 8) % 256, (c >>> 16) % 256, (c >>> 24) % 256]

/-- The 32-bit value of a 4-byte little-endian field; any other shape
decodes to 0. -/
def fromLEBytes : List Nat → Nat
  | [b0, b1, b2, b3] => b0 + b1 * 256 + b2 * 65536 + b3 * 16777216
  | _ => 0

/-- Result of `FrameCodec.decode`: extracted payload, the CRC carried by the
frame, and whether the frame checked out.  Validity is data, not control
flow. -/
structure DecodeResult where
  payload : List Nat
  receivedCrc : Nat
  valid : Bool
deriving DecidableEq

/-- Modelled from the spec: `FrameCodec.encode`, missing from `src/`: the
payload followed by `CrcEngine.compute payload` as 4 bytes, little-endian. -/
def FrameCodec.encode (payload : List Nat) : List Nat :=
  payload ++ toLEBytes (CrcEngine.compute payload)

/-- Modelled from the spec: `FrameCodec.decode`, missing from `src/`: on a
260-byte frame, extract the payload (first 256 bytes) and the received CRC
(last 4 bytes, little-endian) and compare the received CRC against a fresh
computation over the received payload; on any other length, report invalid
(never an exception). -/
def FrameCodec.decode (frame : List Nat) : DecodeResult :=
  if frame.length = BUFFER_SIZE + CRC_SIZE then
    let payload := frame.take BUFFER_SIZE
    let received := fromLEBytes (frame.drop BUFFER_SIZE)
    ⟨payload, received, CrcEngine.compute payload == received⟩
  else
    ⟨[], 0, false⟩

/-! ## Bitwise arithmetic helpers -/

lemma xor_mod_two (a b : Nat) : (a ^^^ b) % 2 = (a % 2) ^^^ (b % 2) := by
  rw [← Nat.and_one_is_mod, ← Nat.and_one_is_mod, ← Nat.and_one_is_mod,
    Nat.and_xor_distrib_right]

lemma xor_shiftRight (a b n : Nat) : (a ^^^ b) >>> n = (a >>> n) ^^^ (b >>> n) := by
  apply Nat.eq_of_testBit_eq
  intro i
  simp [Nat.testBit_shiftRight, Nat.testBit_xor]

lemma xor_left_comm (a b c : Nat) : a ^^^ (b ^^^ c) = b ^^^ (a ^^^ c) := by
  rw [← Nat.xor_assoc, Nat.xor_comm a b, Nat.xor_assoc]

lemma mul_xor_bits (m x y : Nat) (hx : x < 2) (hy : y < 2) :
    m * (x ^^^ y) = (m * x) ^^^ (m * y) := by
  interval_cases x <;> interval_cases y <;> simp [Nat.xor_self]

/-! ## The CRC register step: GF(2)-linearity, bounds, injectivity on nonzero -/

lemma crcStep_xor (a b : Nat) : crcStep (a ^^^ b) = crcStep a ^^^ crcStep b := by
  unfold crcStep
  rw [xor_shiftRight, xor_mod_two,
    mul_xor_bits CRC32_POLY (a % 2) (b % 2) (Nat.mod_lt a (by norm_num))
      (Nat.mod_lt b (by norm_num))]
  simp [Nat.xor_assoc, Nat.xor_comm, xor_left_comm]

lemma crcStepN_xor (n a b : Nat) :
    crcStepN n (a ^^^ b) = crcStepN n a ^^^ crcStepN n b := by
  induction n generalizing a b with
  | zero => rfl
  | succ n ih => simp only [crcStepN, crcStep_xor, ih]

lemma crcStepN_add (m n c : Nat) : crcStepN n (crcStepN m c) = crcStepN (m + n) c := by
  induction m generalizing c with
  | zero => rw [Nat.zero_add]; rfl
  | succ m ih => rw [crcStepN, ih, Nat.succ_add]; rfl

lemma crcStep_lt (c : Nat) (h : c < 2 ^ 32) : crcStep c < 2 ^ 32 := by
  unfold crcStep
  apply Nat.xor_lt_two_pow
  · rw [Nat.shiftRight_one]
    exact lt_of_le_of_lt (Nat.div_le_self c 2) h
  · rcases Nat.mod_two_eq_zero_or_one c with h2 | h2 <;>
      rw [h2] <;> norm_num [CRC32_POLY]

lemma crcStep_ne_zero (c : Nat) (hlt : c < 2 ^ 32) (h : c ≠ 0) : crcStep c ≠ 0 := by
  rcases Nat.mod_two_eq_zero_or_one c with h2 | h2
  · unfold crcStep
    rw [h2, Nat.mul_zero, Nat.xor_zero, Nat.shiftRight_one]
    omega
  · unfold crcStep
    rw [h2, Nat.mul_one]
    intro hz
    have hlt31 : c >>> 1 < 2 ^ 31 := by rw [Nat.shiftRight_one]; omega
    have hpoly : Nat.testBit CRC32_POLY 31 = true := by decide
    have h31 : Nat.testBit ((c >>> 1) ^^^ CRC32_POLY) 31 = true := by
      rw [Nat.testBit_xor, Nat.testBit_lt_two_pow hlt31, hpoly]
      rfl
    rw [hz] at h31
    simp [Nat.zero_testBit] at h31

lemma crcStepN_lt (n c : Nat) (h : c < 2 ^ 32) : crcStepN n c < 2 ^ 32 := by
  induction n generalizing c with
  | zero => exact h
  | succ n ih => exact ih (crcStep c) (crcStep_lt c h)

lemma crcStepN_ne_zero (n c : Nat) (hlt : c < 2 ^ 32) (h : c ≠ 0) :
    crcStepN n c ≠ 0 := by
  induction n generalizing c with
  | zero => exact h
  | succ n ih => exact ih (crcStep c) (crcStep_lt c hlt) (crcStep_ne_zero c hlt h)

/-! ## Byte-wise CRC equals the bit-at-a-time reference -/

lemma crcStepN_xor_bits (n : Nat) :
    ∀ c b, b < 2 ^ n → crcStepN n (c ^^^ b) = (bitsLSB n b).foldl crcBitStep c := by
  induction n with
  | zero =>
    intro c b hb
    have hb0 : b = 0 := Nat.lt_one_iff.mp hb
    simp [hb0, bitsLSB, crcStepN]
  | succ n ih =>
    intro c b hb
    show crcStepN n (crcStep (c ^^^ b)) = _
    have hstep : crcStep (c ^^^ b) = crcStep (c ^^^ b % 2) ^^^ (b >>> 1) := by
      unfold crcStep
      rw [xor_shiftRight, xor_mod_two, xor_shiftRight, xor_mod_two]
      have hb2 : (b % 2) >>> 1 = 0 := by rw [Nat.shiftRight_one]; omega
      have hb22 : b % 2 % 2 = b % 2 := by omega
      rw [hb2, hb22, Nat.xor_zero]
      simp [Nat.xor_assoc, Nat.xor_comm, xor_left_comm]
    have hb1 : b >>> 1 < 2 ^ n := by
      rw [Nat.shiftRight_one]
      rw [pow_succ] at hb
      omega
    rw [hstep, ih (crcStep (c ^^^ b % 2)) (b >>> 1) hb1]
    rfl

lemma crcUpdateByte_eq_bits (c b : Nat) (hb : b < 256) :
    crcUpdateByte c b = (bitsLSB 8 b).foldl crcBitStep c :=
  crcStepN_xor_bits 8 c b hb

lemma foldl_bytes_eq_bits (p : List Nat) :
    ∀ c, (∀ x ∈ p, x < 256) →
      p.foldl crcUpdateByte c = (p.flatMap (bitsLSB 8)).foldl crcBitStep c := by
  induction p with
  | nil => intro c _; rfl
  | cons b p ih =>
    intro c hb
    simp only [List.foldl_cons, List.flatMap_cons, List.foldl_append]
    rw [crcUpdateByte_eq_bits c b (hb b (by simp))]
    exact ih _ (fun x hx => hb x (by simp [hx]))

/-- C3: `CrcEngine.compute`, applied to any 256-byte payload, equals the
standard bit-at-a-time CRC-32 reference function (reflected polynomial
`0xEDB88320`, initial value `0xFFFFFFFF`, final xor `0xFFFFFFFF`), computed
over the payload bytes only. -/
theorem crc_compute_eq_reference (p : List Nat) (_hlen : p.length = 256)
    (hb : ∀ x ∈ p, x < 256) : CrcEngine.compute p = crc32_reference p := by
  unfold CrcEngine.compute crc32_reference
  rw [foldl_bytes_eq_bits p CRC32_INIT hb]

/-- Witness for C3 at the all-zero 256-byte payload. -/
theorem crc_compute_eq_reference_witness :
    (List.replicate 256 0).length = 256 ∧
      CrcEngine.compute (List.replicate 256 0) = crc32_reference (List.replicate 256 0) :=
  ⟨by decide, crc_compute_eq_reference (List.replicate 256 0) (by decide) (by decide)⟩

/-! ## Bounds on the computed checksum, and the little-endian CRC field -/

lemma crcUpdateByte_lt (c b : Nat) (hc : c < 2 ^ 32) (hb : b < 256) :
    crcUpdateByte c b < 2 ^ 32 := by
  apply crcStepN_lt
  exact Nat.xor_lt_two_pow hc (by omega)

lemma foldl_crcUpdateByte_lt (p : List Nat) :
    ∀ c, c < 2 ^ 32 → (∀ x ∈ p, x < 256) → p.foldl crcUpdateByte c < 2 ^ 32 := by
  induction p with
  | nil => intro c hc _; exact hc
  | cons b p ih =>
    intro c hc hb
    exact ih (crcUpdateByte c b) (crcUpdateByte_lt c b hc (hb b (by simp)))
      (fun x hx => hb x (by simp [hx]))

lemma compute_lt (p : List Nat) (hb : ∀ x ∈ p, x < 256) :
    CrcEngine.compute p < 2 ^ 32 := by
  unfold CrcEngine.compute
  apply Nat.xor_lt_two_pow
  · exact foldl_crcUpdateByte_lt p CRC32_INIT (by norm_num [CRC32_INIT]) hb
  · norm_num [CRC32_FINAL_XOR]

lemma fromLE_toLE (c : Nat) (h : c < 2 ^ 32) : fromLEBytes (toLEBytes c) = c := by
  simp only [toLEBytes, fromLEBytes, Nat.shiftRight_eq_div_pow]
  omega

lemma toLEBytes_length (c : Nat) : (toLEBytes c).length = 4 := rfl

/-! ## Claims about the shared constants and the codec -/

/-- C1: the shared protocol constants are `BUFFER_SIZE = 256` (the payload
size, excluding metadata) and `CRC_SIZE = 4`, and every encoded frame has
total size `BUFFER_SIZE + CRC_SIZE = 260` bytes. -/
theorem protocol_constants :
    BUFFER_SIZE = 256 ∧ CRC_SIZE = 4 ∧ BUFFER_SIZE + CRC_SIZE = 260 ∧
      ∀ p : List Nat, p.length = BUFFER_SIZE →
        (FrameCodec.encode p).length = BUFFER_SIZE + CRC_SIZE := by
  refine ⟨rfl, rfl, rfl, ?_⟩
  intro p hp
  simp [FrameCodec.encode, toLEBytes, hp, BUFFER_SIZE, CRC_SIZE]

/-- Witness for C1 at the all-zero 256-byte payload. -/
theorem protocol_constants_witness :
    (List.replicate 256 0).length = BUFFER_SIZE ∧
      (FrameCodec.encode (List.replicate 256 0)).length = BUFFER_SIZE + CRC_SIZE :=
  ⟨by decide, protocol_constants.2.2.2 (List.replicate 256 0) (by decide)⟩

/-- C2: for every 256-byte payload `P`, `decode (encode P)` yields payload
`P` and `valid = true`. -/
theorem frame_roundtrip (p : List Nat) (hlen : p.length = 256)
    (hb : ∀ x ∈ p, x < 256) :
    (FrameCodec.decode (FrameCodec.encode p)).payload = p ∧
      (FrameCodec.decode (FrameCodec.encode p)).valid = true := by
  unfold FrameCodec.encode FrameCodec.decode
  have hB : BUFFER_SIZE = p.length := by rw [hlen]; rfl
  have hlenE : (p ++ toLEBytes (CrcEngine.compute p)).length = BUFFER_SIZE + CRC_SIZE := by
    simp [List.length_append, hlen, toLEBytes_length, BUFFER_SIZE, CRC_SIZE]
  rw [if_pos hlenE, hB, List.take_left, List.drop_left]
  refine ⟨rfl, ?_⟩
  show (CrcEngine.compute p == fromLEBytes (toLEBytes (CrcEngine.compute p))) = true
  rw [fromLE_toLE (CrcEngine.compute p) (compute_lt p hb)]
  exact beq_self_eq_true (CrcEngine.compute p)

/-- Witness for C2 at the all-zero 256-byte payload. -/
theorem frame_roundtrip_witness :
    (List.replicate 256 0).length = 256 ∧
      (FrameCodec.decode (FrameCodec.encode (List.replicate 256 0))).payload =
        List.replicate 256 0 ∧
      (FrameCodec.decode (FrameCodec.encode (List.replicate 256 0))).valid = true :=
  ⟨by decide, frame_roundtrip (List.replicate 256 0) (by decide) (by decide)⟩

/-- C5: on every input whose length is not 260 bytes, `FrameCodec.decode`
returns a result with `valid = false`; being a total Lean function whose
result carries validity as data, neither it nor `CrcEngine.compute` signals
failure through control flow. -/
theorem decode_wrong_length (f : List Nat) (h : f.length ≠ 260) :
    (FrameCodec.decode f).valid = false := by
  simp [FrameCodec.decode, BUFFER_SIZE, CRC_SIZE, h]

/-- Witness for C5 at the empty input. -/
theorem decode_wrong_length_witness :
    ([] : List Nat).length ≠ 260 ∧ (FrameCodec.decode []).valid = false :=
  ⟨by decide, decode_wrong_length [] (by decide)⟩

/-- C6: `CrcEngine.compute` is a pure function, hence deterministic: any two
evaluations on equal 256-byte payloads return the same checksum, and that
checksum is a 32-bit value. -/
theorem crc_deterministic (p q : List Nat) (hpq : q = p) (_hlen : p.length = 256)
    (hb : ∀ x ∈ p, x < 256) :
    CrcEngine.compute q = CrcEngine.compute p ∧ CrcEngine.compute p < 2 ^ 32 := by
  subst hpq
  exact ⟨rfl, compute_lt q hb⟩

/-- Witness for C6 at the all-zero 256-byte payload. -/
theorem crc_deterministic_witness :
    CrcEngine.compute (List.replicate 256 0) = CrcEngine.compute (List.replicate 256 0) ∧
      CrcEngine.compute (List.replicate 256 0) < 2 ^ 32 :=
  crc_deterministic (List.replicate 256 0) (List.replicate 256 0) rfl (by decide) (by decide)

/-! ## Single-bit error detection -/

lemma xor_right_cancel (x y f : Nat) (h : x ^^^ f = y ^^^ f) : x = y := by
  have h2 := congrArg (fun z => z ^^^ f) h
  simpa [Nat.xor_assoc, Nat.xor_self, Nat.xor_zero] using h2

lemma xor_eq_self_iff_zero (a s : Nat) (h : a ^^^ s = a) : s = 0 := by
  have h2 := congrArg (fun z => a ^^^ z) h
  simpa [← Nat.xor_assoc, Nat.xor_self, Nat.zero_xor] using h2

/-- Folding further bytes after xoring an error `d` into the register is the
same as folding the clean register and xoring in the stepped-forward error. -/
lemma foldl_crcUpdateByte_xor (B : List Nat) :
    ∀ c d, B.foldl crcUpdateByte (c ^^^ d) =
      (B.foldl crcUpdateByte c) ^^^ crcStepN (8 * B.length) d := by
  induction B with
  | nil => intro c d; rfl
  | cons b B ih =>
    intro c d
    simp only [List.foldl_cons]
    have h1 : crcUpdateByte (c ^^^ d) b = crcUpdateByte c b ^^^ crcStepN 8 d := by
      unfold crcUpdateByte
      rw [show (c ^^^ d) ^^^ b = (c ^^^ b) ^^^ d by
        simp [Nat.xor_assoc, Nat.xor_comm d b], crcStepN_xor]
    rw [h1, ih (crcUpdateByte c b) (crcStepN 8 d), crcStepN_add]
    have hlen : 8 * (b :: B).length = 8 + 8 * B.length := by
      simp [List.length_cons]
      ring
    rw [hlen]

/-- Flipping one bit of one payload byte always changes the computed
CRC-32: the error syndrome is a nonzero register value stepped forward by a
register map that preserves nonzeroness. -/
lemma compute_flip_ne (A B : List Nat) (b j : Nat) (hj : j < 8) :
    CrcEngine.compute (A ++ (b ^^^ 2 ^ j) :: B) ≠ CrcEngine.compute (A ++ b :: B) := by
  unfold CrcEngine.compute
  intro h
  have h2 := xor_right_cancel _ _ _ h
  rw [List.foldl_append, List.foldl_append] at h2
  simp only [List.foldl_cons] at h2
  have hsplit : crcUpdateByte (A.foldl crcUpdateByte CRC32_INIT) (b ^^^ 2 ^ j) =
      crcUpdateByte (A.foldl crcUpdateByte CRC32_INIT) b ^^^ crcStepN 8 (2 ^ j) := by
    unfold crcUpdateByte
    rw [← Nat.xor_assoc, crcStepN_xor]
  rw [hsplit, foldl_crcUpdateByte_xor] at h2
  have hz := xor_eq_self_iff_zero _ _ h2
  rw [crcStepN_add] at hz
  have hjlt : (2 : Nat) ^ j < 2 ^ 32 := by
    have : (2 : Nat) ^ j ≤ 2 ^ 7 := Nat.pow_le_pow_right (by norm_num) (by omega)
    omega
  exact crcStepN_ne_zero (8 + 8 * B.length) (2 ^ j) hjlt
    (Nat.pos_iff_ne_zero.mp (Nat.pos_pow_of_pos j (by norm_num))) hz

/-- C7: for every 256-byte payload and every single-bit flip in the payload
region of the encoded frame (the CRC field left unmodified), decoding the
corrupted 260-byte frame reports `valid = false`. -/
theorem single_bit_flip_detected (A B : List Nat) (b j : Nat) (hj : j < 8)
    (hlen : (A ++ b :: B).length = 256) (hb : ∀ x ∈ A ++ b :: B, x < 256) :
    (FrameCodec.decode
      ((A ++ (b ^^^ 2 ^ j) :: B) ++ toLEBytes (CrcEngine.compute (A ++ b :: B)))).valid
      = false := by
  have hlenP : (A ++ (b ^^^ 2 ^ j) :: B).length = 256 := by
    simp only [List.length_append, List.length_cons] at hlen ⊢
    omega
  unfold FrameCodec.decode
  have hlenE : ((A ++ (b ^^^ 2 ^ j) :: B) ++
      toLEBytes (CrcEngine.compute (A ++ b :: B))).length = BUFFER_SIZE + CRC_SIZE := by
    simp [List.length_append, List.length_cons, toLEBytes_length, BUFFER_SIZE, CRC_SIZE] at *
    omega
  have hB : BUFFER_SIZE = (A ++ (b ^^^ 2 ^ j) :: B).length := by rw [hlenP]; rfl
  rw [if_pos hlenE, hB, List.take_left, List.drop_left]
  show (CrcEngine.compute (A ++ (b ^^^ 2 ^ j) :: B) ==
    fromLEBytes (toLEBytes (CrcEngine.compute (A ++ b :: B)))) = false
  rw [fromLE_toLE (CrcEngine.compute (A ++ b :: B)) (compute_lt (A ++ b :: B) hb)]
  exact beq_eq_false_iff_ne.mpr (compute_flip_ne A B b j hj)

/-- Witness for C7: flipping bit 0 of byte 0 of the all-zero payload. -/
theorem single_bit_flip_detected_witness :
    (0 : Nat) < 8 ∧ (([] : List Nat) ++ 0 :: List.replicate 255 0).length = 256 ∧
      (FrameCodec.decode
        ((([] : List Nat) ++ (0 ^^^ 2 ^ 0) :: List.replicate 255 0) ++
          toLEBytes (CrcEngine.compute ([] ++ 0 :: List.replicate 255 0)))).valid = false :=
  ⟨by decide, by decide,
    single_bit_flip_detected [] (List.replicate 255 0) 0 0 (by decide) (by decide) (by decide)⟩

/-- C10: `BUFFER_SIZE` is a multiple of 4, the divisibility constraint that
`common_defs.h` requires for compatibility with the 32-bit hardware CRC
calculation. -/
theorem buffer_size_multiple_of_four : BUFFER_SIZE % 4 = 0 := by decide

/-! ## Retry policy and the master session state machine -/

/-- Result of one completed transfer attempt, as in the spec's data model. -/
inductive TransferOutcome
  | crcValid
  | crcMismatch
  | timeout
  | aborted
deriving DecidableEq

/-- Answer of the retry policy. -/
inductive RetryDecision
  | retry
  | giveUp
deriving DecidableEq

/-- Modelled from the spec: `RetryPolicy.decide`, missing from `src/`: pure
decision function, `Retry` iff the outcome is not `CrcValid` and the attempt
index is below `max_attempts`, otherwise `GiveUp`. -/
def RetryPolicy.decide (o : TransferOutcome) (attempt maxAttempts : Nat) : RetryDecision :=
  if o ≠ TransferOutcome.crcValid ∧ attempt < maxAttempts then RetryDecision.retry
  else RetryDecision.giveUp

/-- Terminal reason of a failed session: the last transfer outcome, or a
deliberate cancellation by the application. -/
inductive FailReason
  | outcome (o : TransferOutcome)
  | cancelled
deriving DecidableEq

/-- Phase of the master state machine of one `ProtocolSession`. -/
inductive Phase
  | idle
  | encoding
  | transferring
  | evaluating (o : TransferOutcome)
  | retrying (o : TransferOutcome)
  | success
  | failed (r : FailReason)
deriving DecidableEq

/-- A phase is terminal when the session has delivered its final outcome. -/
def Phase.isTerminal : Phase → Bool
  | Phase.success => true
  | Phase.failed _ => true
  | _ => false

/-- State of one master-side `ProtocolSession`: the phase, the 0-based index
of the current attempt, and the number of DMA transfers in flight. -/
structure Session where
  phase : Phase
  attempt : Nat
  inFlight : Nat
deriving DecidableEq

/-- A session before `start`: idle, no attempt made, nothing in flight. -/
def initSession : Session := ⟨Phase.idle, 0, 0⟩

/-- Discrete events feeding the master state machine. -/
inductive Event
  | start
  | encoded
  | completed (o : TransferOutcome)
  | timedOut
  | evaluated
  | decided
  | cancel

/-- Modelled from the spec: the master-side state machine of §4.5/§5,
missing from `src/`.  `Encoding → Transferring` starts one DMA transfer;
completion or timeout ends it and moves to `Evaluating`; a `CrcValid`
outcome succeeds, an `Aborted` outcome fails without retry, and
`CrcMismatch`/`Timeout` consult the retry policy; cancellation from any
non-terminal phase aborts any in-flight transfer and goes directly to
`Failed Cancelled`.  Events that do not apply to the current phase are
ignored. -/
def MasterProtocol.step (maxAttempts : Nat) (s : Session) (e : Event) : Session :=
  match e with
  | Event.cancel =>
    match s.phase with
    | Phase.success => s
    | Phase.failed _ => s
    | _ => ⟨Phase.failed FailReason.cancelled, s.attempt, 0⟩
  | Event.start =>
    match s.phase with
    | Phase.idle => ⟨Phase.encoding, 0, s.inFlight⟩
    | _ => s
  | Event.encoded =>
    match s.phase with
    | Phase.encoding => ⟨Phase.transferring, s.attempt, s.inFlight + 1⟩
    | _ => s
  | Event.completed o =>
    match s.phase with
    | Phase.transferring => ⟨Phase.evaluating o, s.attempt, s.inFlight - 1⟩
    | _ => s
  | Event.timedOut =>
    match s.phase with
    | Phase.transferring =>
      ⟨Phase.evaluating TransferOutcome.timeout, s.attempt, s.inFlight - 1⟩
    | _ => s
  | Event.evaluated =>
    match s.phase with
    | Phase.evaluating TransferOutcome.crcValid => ⟨Phase.success, s.attempt, s.inFlight⟩
    | Phase.evaluating TransferOutcome.aborted =>
      ⟨Phase.failed (FailReason.outcome TransferOutcome.aborted), s.attempt, s.inFlight⟩
    | Phase.evaluating o => ⟨Phase.retrying o, s.attempt, s.inFlight⟩
    | _ => s
  | Event.decided =>
    match s.phase with
    | Phase.retrying o =>
      match RetryPolicy.decide o s.attempt maxAttempts with
      | RetryDecision.retry => ⟨Phase.encoding, s.attempt + 1, s.inFlight⟩
      | RetryDecision.giveUp => ⟨Phase.failed (FailReason.outcome o), s.attempt, s.inFlight⟩
    | _ => s

/-- Sessions reachable from the initial session under arbitrary events. -/
inductive Reachable (m : Nat) : Session → Prop
  | init : Reachable m initSession
  | next (s : Session) (e : Event) : Reachable m s → Reachable m (MasterProtocol.step m s e)

/-- The number of in-flight transfers a phase accounts for: one while
`Transferring`, none otherwise. -/
def flightOf : Phase → Nat
  | Phase.transferring => 1
  | _ => 0

/-- Inductive invariant of the master machine: the in-flight count is
exactly what the phase accounts for (hence at most one), the attempt index
never exceeds the retry limit, and `Retrying` only ever holds the two
retryable outcomes. -/
def SessionInv (maxAttempts : Nat) (s : Session) : Prop :=
  s.inFlight = flightOf s.phase ∧ s.attempt ≤ maxAttempts ∧
    ∀ o, s.phase = Phase.retrying o →
      o = TransferOutcome.crcMismatch ∨ o = TransferOutcome.timeout

lemma sessionInv_init (m : Nat) : SessionInv m initSession := by
  refine ⟨rfl, Nat.zero_le m, ?_⟩
  intro o h
  simp [initSession] at h

lemma sessionInv_step (m : Nat) (s : Session) (e : Event) (h : SessionInv m s) :
    SessionInv m (MasterProtocol.step m s e) := by
  obtain ⟨h1, h2, h3⟩ := h
  obtain ⟨ph, att, fl⟩ := s
  simp only at h1 h2 h3
  cases e <;> cases ph <;>
    simp_all [MasterProtocol.step, SessionInv, flightOf]
  · rename_i o
    cases o <;> simp_all [MasterProtocol.step, flightOf]
  · rename_i o
    rcases hdec : RetryPolicy.decide o att m with _ | _ <;>
      simp_all [MasterProtocol.step, flightOf]
    · unfold RetryPolicy.decide at hdec
      split at hdec
      · omega
      · exact absurd hdec (by simp)

lemma reachable_inv (m : Nat) (s : Session) (h : Reachable m s) : SessionInv m s := by
  induction h with
  | init => exact sessionInv_init m
  | next s e _ ih => exact sessionInv_step m s e ih

/-- C8: in every reachable state of a master `ProtocolSession`, at most one
transfer attempt is in flight, and the attempt index never exceeds the
retry policy's `max_attempts` limit. -/
theorem session_attempts_bounded (m : Nat) (s : Session) (h : Reachable m s) :
    s.inFlight ≤ 1 ∧ s.attempt ≤ m := by
  obtain ⟨h1, h2, _⟩ := reachable_inv m s h
  refine ⟨?_, h2⟩
  rw [h1]
  cases s.phase <;> simp [flightOf]

/-- Witness for C8 at the initial session. -/
theorem session_attempts_bounded_witness :
    initSession.inFlight ≤ 1 ∧ initSession.attempt ≤ 3 :=
  session_attempts_bounded 3 initSession Reachable.init

/-- C9: cancelling a session takes the master machine directly to `Failed`
with a `Cancelled` outcome (aborting any in-flight transfer), never to
`Retrying`; a cancelled session is absorbing; and `Retrying` never holds an
`Aborted` outcome (`Cancelled` is not a transfer outcome at all), so
aborted/cancelled outcomes are never retried. -/
theorem cancel_never_retried (m : Nat) (s : Session) (h : Reachable m s) :
    (Phase.isTerminal s.phase = false →
      MasterProtocol.step m s Event.cancel =
        ⟨Phase.failed FailReason.cancelled, s.attempt, 0⟩) ∧
    (∀ o, (MasterProtocol.step m s Event.cancel).phase ≠ Phase.retrying o) ∧
    (∀ e, s.phase = Phase.failed FailReason.cancelled → MasterProtocol.step m s e = s) ∧
    (∀ o, s.phase = Phase.retrying o → o ≠ TransferOutcome.aborted) := by
  obtain ⟨-, -, h3⟩ := reachable_inv m s h
  obtain ⟨ph, att, fl⟩ := s
  refine ⟨?_, ?_, ?_, ?_⟩
  · intro hterm
    cases ph <;> simp_all [MasterProtocol.step, Phase.isTerminal]
  · intro o
    cases ph <;> simp [MasterProtocol.step]
  · intro e hph
    simp only at hph
    subst hph
    cases e <;> simp [MasterProtocol.step]
  · intro o hph
    rcases h3 o hph with h | h <;> simp [h]

/-- Witness for C9: cancelling a freshly started (encoding) session. -/
theorem cancel_never_retried_witness :
    MasterProtocol.step 3 ⟨Phase.encoding, 0, 0⟩ Event.cancel =
      ⟨Phase.failed FailReason.cancelled, (0 : Nat), 0⟩ :=
  (cancel_never_retried 3 ⟨Phase.encoding, 0, 0⟩
    (Reachable.next initSession Event.start Reachable.init)).1 (by decide)

/-- C4: `RetryPolicy.decide` returns `Retry` iff the outcome is not
`CrcValid` and the attempt index is below `max_attempts`, and `GiveUp`
otherwise; in particular `decide CrcMismatch 0 3 = Retry` and
`decide CrcMismatch 3 3 = GiveUp`. -/
theorem retry_policy_decide_spec :
    (∀ (o : TransferOutcome) (i m : Nat),
        (RetryPolicy.decide o i m = RetryDecision.retry ↔
          o ≠ TransferOutcome.crcValid ∧ i < m) ∧
        (RetryPolicy.decide o i m = RetryDecision.giveUp ↔
          ¬(o ≠ TransferOutcome.crcValid ∧ i < m))) ∧
      RetryPolicy.decide TransferOutcome.crcMismatch 0 3 = RetryDecision.retry ∧
      RetryPolicy.decide TransferOutcome.crcMismatch 3 3 = RetryDecision.giveUp := by
  refine ⟨?_, by decide, by decide⟩
  intro o i m
  unfold RetryPolicy.decide
  constructor <;> split <;> simp_all
